import Mathlib

/-!
Verification development for the `moose_core` runtime
(`src/backend/rust_core/moose_core/src/`).

Shallow embedding conventions:
* Rust `HashMap`/`DashMap` values become association lists
  `List (String × α)` with unique keys; `get` is `alookup`, in-place
  mutation of one entry is `aupdate`, `insert` on an absent key appends.
* Rust `String` statuses stay `String` literals exactly as in the source.
* `f32`/`f64` payload numbers are modelled as `ℚ` (exact arithmetic);
  the L2 normalisation of `vector.rs` additionally uses `ℝ` because it
  divides by a square root.
* RFC-3339 timestamps produced by `Utc::now()` are threaded in as
  explicit arguments (`now`), since wall-clock time is external input.
* Fallible operations return `Except`/`Option`; operations the Rust code
  always answers with `Ok(value)` are modelled as pure functions.
-/

namespace Moose

/-! ## Association-list primitives (HashMap / DashMap model) -/

def alookup {α : Type} (k : String) : List (String × α) → Option α
  | [] => none
  | p :: ps => if p.1 = k then some p.2 else alookup k ps

def aupdate {α : Type} (k : String) (f : α → α) (l : List (String × α)) :
    List (String × α) :=
  l.map (fun p => if p.1 = k then (p.1, f p.2) else p)

def ainsert {α : Type} (k : String) (v : α) (l : List (String × α)) :
    List (String × α) :=
  if l.any (fun p => p.1 = k) then aupdate k (fun _ => v) l else l ++ [(k, v)]

theorem alookup_aupdate_same {α : Type} (k : String) (f : α → α)
    (l : List (String × α)) : alookup k (aupdate k f l) = (alookup k l).map f := by
  induction l with
  | nil => rfl
  | cons p ps ih =>
    by_cases h : p.1 = k <;> simp [alookup, aupdate, h] at ih ⊢ <;> exact ih

theorem alookup_aupdate_other {α : Type} {k k' : String} (h : k' ≠ k) (f : α → α)
    (l : List (String × α)) : alookup k' (aupdate k f l) = alookup k' l := by
  induction l with
  | nil => rfl
  | cons p ps ih =>
    rcases p with ⟨a, b⟩
    by_cases hp : a = k
    · subst hp
      simp only [aupdate, List.map_cons] at ih ⊢
      simp [alookup, Ne.symm h] at ih ⊢
      exact ih
    · by_cases hp' : a = k'
      · subst hp'
        simp [alookup, aupdate, hp]
      · simp [alookup, aupdate, hp, hp'] at ih ⊢
        exact ih

theorem alookup_append_left {α : Type} (k : String) {l : List (String × α)}
    (l' : List (String × α)) {v : α} (h : alookup k l = some v) :
    alookup k (l ++ l') = some v := by
  induction l with
  | nil => simp [alookup] at h
  | cons p ps ih =>
    by_cases hp : p.1 = k <;> simp [alookup, hp] at h ⊢
    · exact h
    · exact ih h

theorem alookup_append_none {α : Type} (k : String) {l : List (String × α)}
    (l' : List (String × α)) (h : alookup k l = none) :
    alookup k (l ++ l') = alookup k l' := by
  induction l with
  | nil => rfl
  | cons p ps ih =>
    by_cases hp : p.1 = k <;> simp [alookup, hp] at h ⊢
    exact ih h

/-! ## Scheduler data model (`scheduler.rs`) -/

inductive SchedulerError where
  | missionNotFound (id : String)
  | missionAlreadyExists (id : String)
  | timeout (msg : String)
deriving DecidableEq

structure Task where
  id : String
  agent_id : String
  description : String
  depends_on : List String
  status : String
  result : Option String
deriving DecidableEq

structure Mission where
  id : String
  status : String
  tasks : List (String × Task)
  completed_tasks : Nat
  total_tasks : Nat
  levels : List (List String)
  current_level : Nat
  created_at : String
  completed_at : Option String
deriving DecidableEq

/-- The keys of `remaining` whose dependency lists mention no remaining key
(the `ready` set of one `Mission::build_levels` iteration). -/
def readyKeys (remaining : List (String × List String)) : List String :=
  (remaining.filter
    (fun p => p.2.all (fun d => !(remaining.any (fun q => q.1 = d))))).map Prod.fst

/-- `Mission::build_levels` inner loop: `remaining` maps a task id to its
still-pending dependency list; peel off ready waves until the map is empty,
dumping everything left as one final wave when no task is ready.  The `fuel`
argument only bounds the iteration count: every iteration either stops or
removes at least one key, so starting `fuel` at `remaining.length` reproduces
the Rust `while` loop exactly (when fuel runs out the list is already empty,
and the loop would have returned `[]` as well). -/
def buildLevelsFuel : Nat → List (String × List String) → List (List String)
  | 0, _ => []
  | fuel + 1, remaining =>
    if remaining.isEmpty then []
    else
      let ready := readyKeys remaining
      if ready.isEmpty then [remaining.map Prod.fst]
      else ready :: buildLevelsFuel fuel
        (remaining.filter (fun p => !(ready.contains p.1)))

def buildLevelsGo (remaining : List (String × List String)) : List (List String) :=
  buildLevelsFuel remaining.length remaining

/-- One non-final iteration strictly shrinks `remaining`. -/
theorem filter_not_ready_length_lt (remaining : List (String × List String))
    (h : ¬(readyKeys remaining).isEmpty = true) :
    (remaining.filter
      (fun p => !((readyKeys remaining).contains p.1))).length <
      remaining.length := by
  rw [List.length_filter_lt_length_iff_exists]
  rcases List.exists_mem_of_ne_nil _ (by simpa [List.isEmpty_iff] using h) with ⟨k, hk⟩
  rcases List.mem_map.1 hk with ⟨p, hpReady, hpk⟩
  refine ⟨p, (List.mem_filter.1 hpReady).1, ?_⟩
  intro hcontra
  rw [Bool.not_eq_true'] at hcontra
  rw [List.contains_eq_any_beq, List.any_eq_false] at hcontra
  have hmem : p.1 ∈ readyKeys remaining := by rw [hpk]; exact hk
  exact hcontra p.1 hmem (by simp)

def Mission.build_levels (tasks : List (String × Task)) : List (List String) :=
  buildLevelsGo (tasks.map (fun p => (p.1, p.2.depends_on)))

/-! ## Scheduler operations (`scheduler.rs`, `#[pymethods] impl Scheduler`) -/

structure Scheduler where
  missions : List (String × Mission)
deriving DecidableEq

/-- A task descriptor as passed to `submit_mission`
(a `HashMap<String, String>` in the source; only these four keys are read). -/
structure TaskDesc where
  id : Option String
  agent_id : Option String
  task : Option String
  depends_on : Option String
deriving DecidableEq

/-- `str::split(',')` at the character level (`String.splitOn` does not
reduce inside the kernel, so the model splits the underlying character
list directly; the result is the same). -/
def splitCommaChars : List Char → List (List Char)
  | [] => [[]]
  | c :: cs =>
    let rest := splitCommaChars cs
    if c = ',' then [] :: rest
    else (c :: rest.headD []) :: rest.tail

/-- `str::trim` (whitespace stripped from both ends). -/
def trimChars (cs : List Char) : List Char :=
  ((cs.dropWhile Char.isWhitespace).reverse.dropWhile Char.isWhitespace).reverse

/-- `depends_on` parsing: comma-split, trim each part, drop empties. -/
def parseDepends (s : String) : List String :=
  ((splitCommaChars s.data).map trimChars).filterMap
    (fun cs => if cs.isEmpty then none else some (String.mk cs))

/-- The `for t in tasks` loop of `submit_mission`. `fresh n` stands for the
8-char UUID prefix generated for the `n`-th descriptor lacking an `id`
(the counter advances on every descriptor; only its injectivity on used
indices ever matters). -/
def buildTaskMap (fresh : Nat → String) : List TaskDesc → Nat → List (String × Task) →
    List (String × Task)
  | [], _, acc => acc
  | d :: ds, n, acc =>
    let id := d.id.getD (fresh n)
    let t : Task :=
      { id := id, agent_id := d.agent_id.getD "",
        description := d.task.getD "",
        depends_on := (d.depends_on.map parseDepends).getD [],
        status := "pending", result := none }
    buildTaskMap fresh ds (n + 1) (ainsert id t acc)

def Scheduler.submit_mission (s : Scheduler) (mission_id : String)
    (tasks : List TaskDesc) (fresh : Nat → String) (now : String) :
    Except SchedulerError Scheduler :=
  if (alookup mission_id s.missions).isSome then
    .error (.missionAlreadyExists mission_id)
  else
    let task_map := buildTaskMap fresh tasks 0 []
    let total := task_map.length
    let levels := Mission.build_levels task_map
    -- `DashMap::insert` on a key just checked absent = append.
    .ok { missions := s.missions ++ [(mission_id,
      { id := mission_id, status := "running", tasks := task_map,
        completed_tasks := 0, total_tasks := total, levels := levels,
        current_level := 0, created_at := now, completed_at := none })] }

/-- The summary map returned by `get_mission` (values stringified as in the
source). -/
structure MissionSummary where
  id : String
  status : String
  completed_tasks : String
  total_tasks : String
  current_level : String
deriving DecidableEq

def Scheduler.get_mission (s : Scheduler) (mission_id : String) :
    Option MissionSummary :=
  (alookup mission_id s.missions).map (fun m =>
    { id := m.id, status := m.status,
      completed_tasks := toString m.completed_tasks,
      total_tasks := toString m.total_tasks,
      current_level := toString m.current_level })

/-- `complete_task` body once the mission is found (the `m.tasks.get_mut` /
counter / wave-advance block). -/
def completeUpdate (m : Mission) (task_id : String) (result : Option String)
    (now : String) : Mission :=
  let m1 : Mission := { m with
    tasks := aupdate task_id
      (fun t => { t with status := "completed", result := result }) m.tasks,
    completed_tasks := m.completed_tasks + 1 }
  if m1.current_level < m1.levels.length then
    if (m1.levels.getD m1.current_level []).all (fun tid =>
        match alookup tid m1.tasks with
        | some t => t.status = "completed" || t.status = "failed"
        | none => true) then
      let m2 : Mission := { m1 with current_level := m1.current_level + 1 }
      if m1.levels.length ≤ m2.current_level then
        { m2 with status := "completed", completed_at := some now }
      else m2
    else m1
  else m1

def Scheduler.complete_task (s : Scheduler) (mission_id task_id : String)
    (result : Option String) (now : String) : Scheduler × Bool :=
  match alookup mission_id s.missions with
  | none => (s, false)
  | some _ =>
    ({ missions := aupdate mission_id
        (fun m => completeUpdate m task_id result now) s.missions }, true)

/-- `fail_task` body once the mission is found. -/
def failUpdate (m : Mission) (task_id : String) (error : String) (now : String) :
    Mission :=
  { m with
    tasks := aupdate task_id
      (fun t => { t with status := "failed", result := some error }) m.tasks,
    status := "failed", completed_at := some now }

def Scheduler.fail_task (s : Scheduler) (mission_id task_id : String)
    (error : String) (now : String) : Scheduler × Bool :=
  match alookup mission_id s.missions with
  | none => (s, false)
  | some _ =>
    ({ missions := aupdate mission_id
        (fun m => failUpdate m task_id error now) s.missions }, true)

structure ReadyTask where
  id : String
  agent_id : String
  task : String
deriving DecidableEq

def Scheduler.get_ready_tasks (s : Scheduler) (mission_id : String) :
    List ReadyTask :=
  match alookup mission_id s.missions with
  | none => []
  | some m =>
    if m.current_level < m.levels.length then
      (m.levels.getD m.current_level []).filterMap (fun tid =>
        match alookup tid m.tasks with
        | some t =>
          if t.status = "pending" then
            some { id := t.id, agent_id := t.agent_id, task := t.description }
          else none
        | none => none)
    else []

def Scheduler.start_task (s : Scheduler) (mission_id task_id : String) :
    Scheduler × Bool :=
  match alookup mission_id s.missions with
  | none => (s, false)
  | some m =>
    match alookup task_id m.tasks with
    | some t =>
      if t.status = "pending" then
        let toRunning : Task → Task := fun t' => { t' with status := "running" }
        let setRunning : Mission → Mission := fun m' =>
          { m' with tasks := aupdate task_id toRunning m'.tasks }
        ({ missions := aupdate mission_id setRunning s.missions }, true)
      else (s, false)
    | none => (s, false)

def Scheduler.cancel_mission (s : Scheduler) (mission_id : String) (now : String) :
    Scheduler × Bool :=
  match alookup mission_id s.missions with
  | none => (s, false)
  | some m =>
    if m.status = "running" then
      ({ missions := aupdate mission_id (fun m' =>
          { m' with status := "failed", completed_at := some now }) s.missions },
        true)
    else (s, false)

/-! ## Scheduler operation traces -/

/-- One host-driver call; `now` fields model the wall clock read inside the
call, `fresh` the UUID generator. -/
inductive SchedOp where
  | submit (mission_id : String) (tasks : List TaskDesc) (fresh : Nat → String)
      (now : String)
  | start (mission_id task_id : String)
  | complete (mission_id task_id : String) (result : Option String) (now : String)
  | fail (mission_id task_id : String) (error : String) (now : String)
  | cancel (mission_id : String) (now : String)

def SchedOp.apply (s : Scheduler) : SchedOp → Scheduler
  | .submit mid ds fresh now =>
    match s.submit_mission mid ds fresh now with
    | .ok s' => s'
    | .error _ => s
  | .start mid tid => (s.start_task mid tid).1
  | .complete mid tid result now => (s.complete_task mid tid result now).1
  | .fail mid tid err now => (s.fail_task mid tid err now).1
  | .cancel mid now => (s.cancel_mission mid now).1

def Scheduler.run (s : Scheduler) (ops : List SchedOp) : Scheduler :=
  ops.foldl SchedOp.apply s

/-! ## Scheduler lemmas -/

theorem completeUpdate_tasks (m : Mission) (tid : String) (r : Option String)
    (now : String) : (completeUpdate m tid r now).tasks =
      aupdate tid (fun t => { t with status := "completed", result := r }) m.tasks := by
  unfold completeUpdate
  dsimp only
  split
  · split
    · split <;> rfl
    · rfl
  · rfl

theorem completeUpdate_completed (m : Mission) (tid : String) (r : Option String)
    (now : String) :
    (completeUpdate m tid r now).completed_tasks = m.completed_tasks + 1 := by
  unfold completeUpdate
  dsimp only
  split
  · split
    · split <;> rfl
    · rfl
  · rfl

theorem completeUpdate_total (m : Mission) (tid : String) (r : Option String)
    (now : String) : (completeUpdate m tid r now).total_tasks = m.total_tasks := by
  unfold completeUpdate
  dsimp only
  split
  · split
    · split <;> rfl
    · rfl
  · rfl

def Scheduler.taskStatus (s : Scheduler) (mid tid : String) : Option String :=
  (alookup mid s.missions).bind (fun m => (alookup tid m.tasks).map Task.status)

/-- Position of a status in the allowed forward order `pending → running →
{completed, failed}` (unknown strings are ranked lowest, like `pending`). -/
def statusRank : Option String → Nat
  | some st =>
    if st = "running" then 1
    else if st = "completed" then 2
    else if st = "failed" then 2
    else 0
  | none => 0

theorem statusRank_le_two (o : Option String) : statusRank o ≤ 2 := by
  cases o with
  | none => exact Nat.zero_le 2
  | some st =>
    simp only [statusRank]
    split
    · omega
    · split
      · omega
      · split <;> omega

theorem taskStatus_update_other (s : Scheduler) {mid mid' : String} (tid : String)
    (h : mid ≠ mid') (f : Mission → Mission) :
    Scheduler.taskStatus { missions := aupdate mid' f s.missions } mid tid =
      s.taskStatus mid tid := by
  simp only [Scheduler.taskStatus, alookup_aupdate_other h]

theorem taskStatus_update_self (s : Scheduler) (mid tid : String)
    (f : Mission → Mission) {m : Mission} (hm : alookup mid s.missions = some m) :
    Scheduler.taskStatus { missions := aupdate mid f s.missions } mid tid =
      (alookup tid (f m).tasks).map Task.status := by
  simp only [Scheduler.taskStatus, alookup_aupdate_same, hm, Option.map_some']
  rfl

/-- Looking up a task's status through a found mission. -/
theorem taskStatus_of_lookup {s : Scheduler} {mid : String} {m : Mission}
    (hm : alookup mid s.missions = some m) (tid : String) :
    s.taskStatus mid tid = (alookup tid m.tasks).map Task.status := by
  simp [Scheduler.taskStatus, hm, Option.some_bind']

/-- Rank monotonicity of a mission-local update whose task-table change is an
`aupdate` that never lowers the written task's rank. -/
theorem rank_mono_of_task_write (s : Scheduler) (mid₀ mid tid tid₀ : String)
    (f : Mission → Mission) (g : Task → Task) {m₀ : Mission}
    (hm₀ : alookup mid₀ s.missions = some m₀)
    (htasks : ∀ m, (f m).tasks = aupdate tid₀ g m.tasks)
    (hg : ∀ t, alookup tid₀ m₀.tasks = some t →
      statusRank (some t.status) ≤ statusRank (some (g t).status)) :
    statusRank (s.taskStatus mid tid) ≤
      statusRank (Scheduler.taskStatus { missions := aupdate mid₀ f s.missions } mid tid) := by
  by_cases hmid : mid = mid₀
  · subst hmid
    rw [taskStatus_update_self s mid tid f hm₀, htasks]
    by_cases htid : tid = tid₀
    · subst htid
      rw [alookup_aupdate_same, taskStatus_of_lookup hm₀]
      cases h : alookup tid m₀.tasks with
      | none => exact le_of_eq rfl
      | some t =>
        simp only [Option.map_some']
        exact hg t h
    · rw [alookup_aupdate_other htid, taskStatus_of_lookup hm₀]
  · rw [taskStatus_update_other s tid hmid f]

/-- Single-step rank monotonicity: no scheduler call ever moves a task's
status backwards in the order `pending(0) → running(1) → terminal(2)`. -/
theorem schedOp_rank_mono (s : Scheduler) (op : SchedOp) (mid tid : String) :
    statusRank (s.taskStatus mid tid) ≤
      statusRank ((SchedOp.apply s op).taskStatus mid tid) := by
  cases op with
  | submit mid₀ ds fresh now =>
    simp only [SchedOp.apply, Scheduler.submit_mission]
    cases hb : (alookup mid₀ s.missions).isSome with
    | true => simp [hb]
    | false =>
      simp only [hb, Bool.false_eq_true, if_false]
      cases hmid : alookup mid s.missions with
      | none =>
        have hnone : s.taskStatus mid tid = none := by
          simp [Scheduler.taskStatus, hmid]
        rw [hnone]
        exact Nat.zero_le _
      | some m =>
        have heq : ∀ l' : List (String × Mission),
            Scheduler.taskStatus { missions := s.missions ++ l' } mid tid =
              s.taskStatus mid tid := by
          intro l'
          simp only [Scheduler.taskStatus]
          rw [alookup_append_left _ _ hmid, hmid]
        rw [heq]
  | start mid₀ tid₀ =>
    simp only [SchedOp.apply, Scheduler.start_task]
    cases hm₀ : alookup mid₀ s.missions with
    | none => exact le_of_eq rfl
    | some m₀ =>
      dsimp only
      cases ht₀ : alookup tid₀ m₀.tasks with
      | none => exact le_of_eq rfl
      | some t₀ =>
        dsimp only
        by_cases hpend : t₀.status = "pending"
        · rw [if_pos hpend]
          refine rank_mono_of_task_write s mid₀ mid tid tid₀ _
            (fun t' => { t' with status := "running" }) hm₀ (fun m => rfl) ?_
          intro t ht
          rw [ht₀] at ht
          cases ht
          simp [statusRank, hpend]
        · rw [if_neg hpend]
  | complete mid₀ tid₀ r now =>
    simp only [SchedOp.apply, Scheduler.complete_task]
    cases hm₀ : alookup mid₀ s.missions with
    | none => exact le_of_eq rfl
    | some m₀ =>
      dsimp only
      refine rank_mono_of_task_write s mid₀ mid tid tid₀ _
        (fun t => { t with status := "completed", result := r }) hm₀
        (fun m => completeUpdate_tasks m tid₀ r now) ?_
      intro t _
      calc statusRank (some t.status) ≤ 2 := statusRank_le_two _
        _ = _ := by simp [statusRank]
  | fail mid₀ tid₀ err now =>
    simp only [SchedOp.apply, Scheduler.fail_task]
    cases hm₀ : alookup mid₀ s.missions with
    | none => exact le_of_eq rfl
    | some m₀ =>
      dsimp only
      refine rank_mono_of_task_write s mid₀ mid tid tid₀ _
        (fun t => { t with status := "failed", result := some err }) hm₀
        (fun m => rfl) ?_
      intro t _
      calc statusRank (some t.status) ≤ 2 := statusRank_le_two _
        _ = _ := by simp [statusRank]
  | cancel mid₀ now =>
    simp only [SchedOp.apply, Scheduler.cancel_mission]
    cases hm₀ : alookup mid₀ s.missions with
    | none => exact le_of_eq rfl
    | some m₀ =>
      dsimp only
      by_cases hrun : m₀.status = "running"
      · rw [if_pos hrun]
        by_cases hmid : mid = mid₀
        · subst hmid
          rw [taskStatus_update_self s mid tid _ hm₀, taskStatus_of_lookup hm₀]
        · rw [taskStatus_update_other s tid hmid]
      · rw [if_neg hrun]

/-- C3 (amended): over any sequence of scheduler operations, a task's status
rank (`pending`/unknown = 0, `running` = 1, `completed`/`failed` = 2) never
decreases: no task returns to `pending`, and no completed or failed task ever
becomes `pending` or `running` again.  (The statuses `completed` and `failed`
themselves are not sticky — see the counterexample — so only the rank, not
the exact terminal status, is preserved.) -/
theorem C3_run_rank_mono (s : Scheduler) (ops : List SchedOp) (mid tid : String) :
    statusRank (s.taskStatus mid tid) ≤
      statusRank ((s.run ops).taskStatus mid tid) := by
  induction ops generalizing s with
  | nil => exact Nat.le_refl _
  | cons op ops ih =>
    exact Nat.le_trans (schedOp_rank_mono s op mid tid) (ih (SchedOp.apply s op))

def C3desc : TaskDesc :=
  { id := some "a", agent_id := some "w", task := some "demo", depends_on := none }

/-- Mission `m` with single task `a`, submitted and then failed. -/
def C3failedState : Scheduler :=
  Scheduler.run { missions := [] }
    [SchedOp.submit "m" [C3desc] (fun _ => "uuid") "t0",
     SchedOp.fail "m" "a" "boom" "t1"]

/-- C3 counterexample: `complete_task` overwrites a `failed` status with
`completed`, so a task whose status is `failed` does not keep it. -/
theorem C3_failed_task_becomes_completed :
    Scheduler.taskStatus C3failedState "m" "a" = some "failed" ∧
    Scheduler.taskStatus
      (C3failedState.run [SchedOp.complete "m" "a" none "t2"]) "m" "a"
      = some "completed" := by
  decide

/-- C10: every mission-keyed operation called with an unknown mission id
returns its benign default (`false`, `[]`, `None`) and leaves the scheduler
untouched; none of them surfaces a `MissionNotFound` error (their Rust
bodies always return `Ok`). -/
theorem C10_unknown_mission_returns_defaults (s : Scheduler) (mid : String)
    (h : alookup mid s.missions = none) :
    (∀ tid result now, s.complete_task mid tid result now = (s, false)) ∧
    (∀ tid error now, s.fail_task mid tid error now = (s, false)) ∧
    (∀ tid, s.start_task mid tid = (s, false)) ∧
    (∀ now, s.cancel_mission mid now = (s, false)) ∧
    s.get_ready_tasks mid = [] ∧
    s.get_mission mid = none := by
  refine ⟨fun tid r now => ?_, fun tid e now => ?_, fun tid => ?_,
    fun now => ?_, ?_, ?_⟩ <;>
    simp [Scheduler.complete_task, Scheduler.fail_task, Scheduler.start_task,
      Scheduler.cancel_mission, Scheduler.get_ready_tasks,
      Scheduler.get_mission, h]

/-- Witness for C10 at the empty scheduler and mission id `m`. -/
theorem C10_unknown_mission_returns_defaults_witness :
    alookup "m" (Scheduler.missions { missions := [] }) = none ∧
    ({ missions := [] } : Scheduler).get_mission "m" = none :=
  ⟨rfl, (C10_unknown_mission_returns_defaults { missions := [] } "m" rfl).2.2.2.2.2⟩

def C1descX : TaskDesc :=
  { id := some "x", agent_id := some "ag", task := some "tx", depends_on := none }

def C1descY : TaskDesc :=
  { id := some "y", agent_id := some "ag", task := some "ty", depends_on := none }

/-- Mission `m` whose single wave is `[x, y]`, with `x` failed while `y` is
still `pending`. -/
def C1state : Scheduler :=
  Scheduler.run { missions := [] }
    [SchedOp.submit "m" [C1descX, C1descY] (fun _ => "uuid") "t0",
     SchedOp.fail "m" "x" "boom" "t1"]

/-- C1, evaluated at the failing input: after `fail_task(x)` the mission is
`failed`, yet `get_ready_tasks` (which never consults the mission status)
still returns the wave-mate `y`, not the empty list the claim demands. -/
theorem C1_fail_fast_eval :
    (C1state.get_mission "m").map MissionSummary.status = some "failed" ∧
    C1state.get_ready_tasks "m" =
      [{ id := "y", agent_id := "ag", task := "ty" }] := by
  decide

/-! ## C2: the `completed_tasks` counter -/

/-- The task ids of the `complete_task` calls aimed at mission `mid`. -/
def completeTaskIds (mid : String) : List SchedOp → List String
  | [] => []
  | op :: ops =>
    (match op with
     | .complete mid' tid _ _ => if mid' = mid then [tid] else []
     | _ => []) ++ completeTaskIds mid ops

/-- One operation changes a present mission's `completed_tasks` by at most the
number of `complete_task` calls it represents, preserves `total_tasks`, and
never removes the mission. -/
theorem schedOp_mission_track (s : Scheduler) (op : SchedOp) (mid : String)
    (m : Mission) (hm : alookup mid s.missions = some m) :
    ∃ m', alookup mid (SchedOp.apply s op).missions = some m' ∧
      m'.total_tasks = m.total_tasks ∧
      m'.completed_tasks ≤ m.completed_tasks + (completeTaskIds mid [op]).length := by
  cases op with
  | submit mid₀ ds fresh now =>
    simp only [SchedOp.apply, Scheduler.submit_mission]
    cases hb : (alookup mid₀ s.missions).isSome with
    | true => simp only [hb, if_true]; exact ⟨m, hm, rfl, Nat.le_add_right _ _⟩
    | false =>
      simp only [hb, Bool.false_eq_true, if_false]
      refine ⟨m, ?_, rfl, Nat.le_add_right _ _⟩
      exact alookup_append_left _ _ hm
  | start mid₀ tid₀ =>
    simp only [SchedOp.apply, Scheduler.start_task]
    cases hm₀ : alookup mid₀ s.missions with
    | none => exact ⟨m, hm, rfl, Nat.le_add_right _ _⟩
    | some m₀ =>
      dsimp only
      cases ht₀ : alookup tid₀ m₀.tasks with
      | none => exact ⟨m, hm, rfl, Nat.le_add_right _ _⟩
      | some t₀ =>
        dsimp only
        by_cases hpend : t₀.status = "pending"
        · rw [if_pos hpend]
          by_cases hmid : mid = mid₀
          · subst hmid
            let toRun : Task → Task := fun t' => { t' with status := "running" }
            refine ⟨{ m with tasks := aupdate tid₀ toRun m.tasks }, ?_, rfl,
              Nat.le_add_right _ _⟩
            rw [alookup_aupdate_same, hm]
            rfl
          · exact ⟨m, by rw [alookup_aupdate_other hmid]; exact hm, rfl,
              Nat.le_add_right _ _⟩
        · rw [if_neg hpend]
          exact ⟨m, hm, rfl, Nat.le_add_right _ _⟩
  | complete mid₀ tid₀ r now =>
    simp only [SchedOp.apply, Scheduler.complete_task]
    cases hm₀ : alookup mid₀ s.missions with
    | none => exact ⟨m, hm, rfl, Nat.le_add_right _ _⟩
    | some m₀ =>
      dsimp only
      by_cases hmid : mid = mid₀
      · subst hmid
        refine ⟨completeUpdate m tid₀ r now, ?_, completeUpdate_total m tid₀ r now, ?_⟩
        · rw [alookup_aupdate_same, hm]; rfl
        · rw [completeUpdate_completed]
          simp [completeTaskIds]
      · exact ⟨m, by rw [alookup_aupdate_other hmid]; exact hm, rfl,
          Nat.le_add_right _ _⟩
  | fail mid₀ tid₀ err now =>
    simp only [SchedOp.apply, Scheduler.fail_task]
    cases hm₀ : alookup mid₀ s.missions with
    | none => exact ⟨m, hm, rfl, Nat.le_add_right _ _⟩
    | some m₀ =>
      dsimp only
      by_cases hmid : mid = mid₀
      · subst hmid
        refine ⟨failUpdate m tid₀ err now, ?_, rfl, Nat.le_add_right _ _⟩
        rw [alookup_aupdate_same, hm]; rfl
      · exact ⟨m, by rw [alookup_aupdate_other hmid]; exact hm, rfl,
          Nat.le_add_right _ _⟩
  | cancel mid₀ now =>
    simp only [SchedOp.apply, Scheduler.cancel_mission]
    cases hm₀ : alookup mid₀ s.missions with
    | none => exact ⟨m, hm, rfl, Nat.le_add_right _ _⟩
    | some m₀ =>
      dsimp only
      by_cases hrun : m₀.status = "running"
      · rw [if_pos hrun]
        by_cases hmid : mid = mid₀
        · subst hmid
          refine ⟨{ m with status := "failed", completed_at := some now }, ?_,
            rfl, Nat.le_add_right _ _⟩
          rw [alookup_aupdate_same, hm]
          rfl
        · exact ⟨m, by rw [alookup_aupdate_other hmid]; exact hm, rfl,
            Nat.le_add_right _ _⟩
      · rw [if_neg hrun]
        exact ⟨m, hm, rfl, Nat.le_add_right _ _⟩

theorem run_mission_track (ops : List SchedOp) :
    ∀ (s : Scheduler) (mid : String) (m : Mission),
      alookup mid s.missions = some m →
      ∃ m', alookup mid (s.run ops).missions = some m' ∧
        m'.total_tasks = m.total_tasks ∧
        m'.completed_tasks ≤
          m.completed_tasks + (completeTaskIds mid ops).length := by
  induction ops with
  | nil => exact fun s mid m hm => ⟨m, hm, rfl, Nat.le_add_right _ _⟩
  | cons op ops ih =>
    intro s mid m hm
    obtain ⟨m₁, hm₁, htot₁, hcomp₁⟩ := schedOp_mission_track s op mid m hm
    obtain ⟨m', hm', htot', hcomp'⟩ := ih (SchedOp.apply s op) mid m₁ hm₁
    refine ⟨m', hm', htot'.trans htot₁, ?_⟩
    have hlen : (completeTaskIds mid (op :: ops)).length =
        (completeTaskIds mid [op]).length + (completeTaskIds mid ops).length := by
      simp [completeTaskIds]
    omega

/-- A successful `submit_mission` stores a fresh mission whose counter is
zero and whose `total_tasks` is its task-table size. -/
theorem submit_mission_ok_lookup {s s' : Scheduler} {mid now : String}
    {fresh : Nat → String} {ds : List TaskDesc}
    (hsub : s.submit_mission mid ds fresh now = .ok s') :
    ∃ m0, alookup mid s'.missions = some m0 ∧
      m0.completed_tasks = 0 ∧
      m0.total_tasks = m0.tasks.length ∧
      m0.tasks = buildTaskMap fresh ds 0 [] ∧
      m0.levels = Mission.build_levels m0.tasks := by
  rw [Scheduler.submit_mission] at hsub
  by_cases hb : (alookup mid s.missions).isSome
  · rw [if_pos hb] at hsub; cases hsub
  · rw [if_neg hb] at hsub
    have hnone : alookup mid s.missions = none := by
      cases h : alookup mid s.missions with
      | none => rfl
      | some v => rw [h] at hb; simp at hb
    cases hsub
    let M : Mission :=
      { id := mid, status := "running", tasks := buildTaskMap fresh ds 0 [],
        completed_tasks := 0, total_tasks := (buildTaskMap fresh ds 0 []).length,
        levels := Mission.build_levels (buildTaskMap fresh ds 0 []),
        current_level := 0, created_at := now, completed_at := none }
    refine ⟨M, ?_, rfl, rfl, rfl, rfl⟩
    dsimp only
    rw [alookup_append_none _ _ hnone]
    simp [alookup]

/-- C2 (amended): starting from a freshly submitted mission, if the
`complete_task` calls aimed at it use pairwise-distinct task ids that all
belong to the mission, then `completed_tasks` never exceeds `total_tasks`.
(Unconditionally, the counter is incremented by every `complete_task` call
that finds the mission — even for unknown or already-terminal task ids — so
the bound fails for repeated or alien ids; see the counterexample.) -/
theorem C2_completed_le_total (s s' : Scheduler) (mid now : String)
    (fresh : Nat → String) (ds : List TaskDesc) (ops : List SchedOp)
    (m0 m' : Mission)
    (hsub : s.submit_mission mid ds fresh now = .ok s')
    (hm0 : alookup mid s'.missions = some m0)
    (hnodup : (completeTaskIds mid ops).Nodup)
    (hmem : ∀ tid ∈ completeTaskIds mid ops, tid ∈ m0.tasks.map Prod.fst)
    (hm' : alookup mid (s'.run ops).missions = some m') :
    m'.completed_tasks ≤ m'.total_tasks := by
  obtain ⟨M, hM, hMc, hMt, hMtasks, hMlev⟩ := submit_mission_ok_lookup hsub
  rw [hM] at hm0
  have hMm0 : M = m0 := by simpa using hm0
  subst hMm0
  obtain ⟨m₁, hm₁, htot₁, hcomp₁⟩ := run_mission_track ops _ mid M hM
  rw [hm'] at hm₁
  obtain rfl : m' = m₁ := by simpa using hm₁
  have hidslen : (completeTaskIds mid ops).length ≤ M.tasks.length := by
    calc (completeTaskIds mid ops).length
        = (completeTaskIds mid ops).toFinset.card :=
          (List.toFinset_card_of_nodup hnodup).symm
      _ ≤ (M.tasks.map Prod.fst).toFinset.card := by
          refine Finset.card_le_card ?_
          intro x hx
          rw [List.mem_toFinset] at hx ⊢
          exact hmem x hx
      _ ≤ (M.tasks.map Prod.fst).length := List.toFinset_card_le _
      _ = M.tasks.length := List.length_map _ _
  omega

def C2desc : TaskDesc :=
  { id := some "a", agent_id := some "w", task := some "demo", depends_on := none }

/-- Mission `m` with a single task `a`, on which `complete_task` is called
twice. -/
def C2overState : Scheduler :=
  Scheduler.run { missions := [] }
    [SchedOp.submit "m" [C2desc] (fun _ => "uuid") "t0",
     SchedOp.complete "m" "a" none "t1",
     SchedOp.complete "m" "a" none "t2"]

/-- C2 counterexample: `complete_task` increments the counter on every call
that finds the mission, so completing the same task twice drives
`completed_tasks` to 2 while `total_tasks` is 1. -/
theorem C2_counter_exceeds_total :
    (alookup "m" C2overState.missions).map
      (fun m => (m.completed_tasks, m.total_tasks)) = some (2, 1) := by
  decide

def C2okState : Scheduler :=
  match Scheduler.submit_mission { missions := [] } "m" [C2desc]
      (fun _ => "uuid") "t0" with
  | .ok s => s
  | .error _ => { missions := [] }

def emptyMission : Mission :=
  { id := "", status := "", tasks := [], completed_tasks := 0, total_tasks := 0,
    levels := [], current_level := 0, created_at := "", completed_at := none }

def C2mission : Mission :=
  match alookup "m" C2okState.missions with
  | some m => m
  | none => emptyMission

def C2finalMission : Mission :=
  match alookup "m" (C2okState.run [SchedOp.complete "m" "a" none "t1"]).missions with
  | some m => m
  | none => emptyMission

/-- Witness for C2 at a one-task mission completed exactly once. -/
theorem C2_completed_le_total_witness :
    (completeTaskIds "m" [SchedOp.complete "m" "a" none "t1"]).Nodup ∧
    C2finalMission.completed_tasks ≤ C2finalMission.total_tasks :=
  ⟨by decide,
   C2_completed_le_total { missions := [] } C2okState "m" "t0" (fun _ => "uuid")
     [C2desc] [SchedOp.complete "m" "a" none "t1"] C2mission C2finalMission
     (by rfl) (by decide) (by decide) (by decide) (by decide)⟩

/-! ## C6: the wave decomposition partitions the task ids -/

theorem aupdate_map_fst {α : Type} (k : String) (f : α → α)
    (l : List (String × α)) : (aupdate k f l).map Prod.fst = l.map Prod.fst := by
  induction l with
  | nil => rfl
  | cons p ps ih =>
    by_cases hp : p.1 = k <;> simp [aupdate, hp] at ih ⊢ <;> exact ih

theorem ainsert_keys_nodup {α : Type} (k : String) (v : α)
    (l : List (String × α)) (h : (l.map Prod.fst).Nodup) :
    ((ainsert k v l).map Prod.fst).Nodup := by
  unfold ainsert
  split
  · rw [aupdate_map_fst]; exact h
  · rename_i hany
    rw [List.map_append]
    have hperm : (l.map Prod.fst ++ [k]).Perm (k :: l.map Prod.fst) :=
      List.perm_append_singleton k _
    refine hperm.nodup_iff.2 ?_
    rw [List.nodup_cons]
    refine ⟨?_, h⟩
    intro hk
    rcases List.mem_map.1 hk with ⟨p, hp, hpk⟩
    rw [List.any_eq_true] at hany
    exact hany ⟨p, hp, by simp [hpk]⟩

theorem buildTaskMap_keys_nodup (fresh : Nat → String) :
    ∀ (ds : List TaskDesc) (n : Nat) (acc : List (String × Task)),
      (acc.map Prod.fst).Nodup →
      ((buildTaskMap fresh ds n acc).map Prod.fst).Nodup := by
  intro ds
  induction ds with
  | nil => intro n acc h; exact h
  | cons d ds ih =>
    intro n acc h
    exact ih (n + 1) _ (ainsert_keys_nodup _ _ _ h)

/-- One pass of the wave builder: membership in `readyKeys` coincides with
the ready predicate, provided the keys are distinct. -/
theorem contains_readyKeys_eq (remaining : List (String × List String))
    (hnd : (remaining.map Prod.fst).Nodup) {p : String × List String}
    (hp : p ∈ remaining) :
    (readyKeys remaining).contains p.1 =
      p.2.all (fun d => !(remaining.any (fun q => q.1 = d))) := by
  by_cases hpred : p.2.all (fun d => !(remaining.any (fun q => q.1 = d))) = true
  · rw [hpred]
    rw [List.contains_eq_any_beq, List.any_eq_true]
    refine ⟨p.1, ?_, by simp⟩
    exact List.mem_map_of_mem Prod.fst (List.mem_filter.2 ⟨hp, hpred⟩)
  · rw [Bool.eq_false_iff.2 hpred]
    rw [List.contains_eq_any_beq]
    rw [List.any_eq_false]
    intro x hx
    rcases List.mem_map.1 hx with ⟨q, hq, hqx⟩
    obtain ⟨hqmem, hqpred⟩ := List.mem_filter.1 hq
    intro hbeq
    have hkey : p.1 = q.1 := by
      rw [hqx]
      simpa using hbeq
    have : p = q := List.inj_on_of_nodup_map hnd hp hqmem hkey
    subst this
    exact hpred hqpred

theorem buildLevelsFuel_flatten_perm :
    ∀ (fuel : Nat) (remaining : List (String × List String)),
      remaining.length ≤ fuel → (remaining.map Prod.fst).Nodup →
      (buildLevelsFuel fuel remaining).flatten.Perm (remaining.map Prod.fst) := by
  intro fuel
  induction fuel with
  | zero =>
    intro remaining hlen _
    have hnil : remaining = [] :=
      List.eq_nil_of_length_eq_zero (Nat.le_zero.1 hlen)
    subst hnil
    simp [buildLevelsFuel]
  | succ n ih =>
    intro remaining hlen hnd
    rw [buildLevelsFuel]
    by_cases hemp : remaining.isEmpty
    · rw [if_pos hemp]
      rw [List.isEmpty_iff] at hemp
      subst hemp
      simp
    · rw [if_neg hemp]
      dsimp only
      by_cases hready : (readyKeys remaining).isEmpty
      · rw [if_pos hready]
        simp
      · rw [if_neg hready]
        rw [List.flatten_cons]
        -- the residue of this pass
        set rest := remaining.filter
          (fun p => !((readyKeys remaining).contains p.1)) with hrest
        have hlt : rest.length < remaining.length :=
          filter_not_ready_length_lt remaining hready
        have hrec : (buildLevelsFuel n rest).flatten.Perm (rest.map Prod.fst) := by
          refine ih rest (by omega) ?_
          have hsub : (rest.map Prod.fst).Sublist (remaining.map Prod.fst) :=
            (List.filter_sublist remaining).map Prod.fst
          exact hnd.sublist hsub
        -- `rest` is exactly the not-ready filter
        have hrest' : rest = remaining.filter
            (fun p => !(p.2.all (fun d => !(remaining.any (fun q => q.1 = d))))) := by
          rw [hrest]
          refine List.filter_congr ?_
          intro p hp
          rw [contains_readyKeys_eq remaining hnd hp]
        have hsplit : (readyKeys remaining ++ rest.map Prod.fst).Perm
            (remaining.map Prod.fst) := by
          rw [hrest', readyKeys, ← List.map_append]
          exact (List.filter_append_perm _ remaining).map Prod.fst
        exact (hrec.append_left (readyKeys remaining)).trans hsplit

/-- C6: after a successful `submit_mission`, the stored wave decomposition
partitions the task ids — the concatenation of the waves is a permutation of
the task-table keys (which are pairwise distinct), so the wave lengths sum to
`total_tasks`.  This holds for every dependency graph, including cyclic or
dangling ones (where the builder emits all remaining tasks as one final
wave). -/
theorem C6_levels_partition (s s' : Scheduler) (mid now : String)
    (fresh : Nat → String) (ds : List TaskDesc) (m : Mission)
    (hsub : s.submit_mission mid ds fresh now = .ok s')
    (hm : alookup mid s'.missions = some m) :
    m.levels.flatten.Perm (m.tasks.map Prod.fst) ∧
    (m.tasks.map Prod.fst).Nodup ∧
    (m.levels.map List.length).sum = m.total_tasks := by
  obtain ⟨M, hM, hMc, hMt, hMtasks, hMlev⟩ := submit_mission_ok_lookup hsub
  rw [hM] at hm
  obtain rfl : m = M := by simpa using hm.symm
  have hnd : (m.tasks.map Prod.fst).Nodup := by
    rw [hMtasks]
    exact buildTaskMap_keys_nodup fresh ds 0 [] (by simp)
  have hkeys : (m.tasks.map (fun p => (p.1, p.2.depends_on))).map Prod.fst =
      m.tasks.map Prod.fst := by
    rw [List.map_map]; rfl
  have hperm : m.levels.flatten.Perm (m.tasks.map Prod.fst) := by
    rw [hMlev, Mission.build_levels, buildLevelsGo]
    have := buildLevelsFuel_flatten_perm
      ((m.tasks.map (fun p => (p.1, p.2.depends_on))).length)
      (m.tasks.map (fun p => (p.1, p.2.depends_on)))
      (Nat.le_refl _) (by rw [hkeys]; exact hnd)
    rw [hkeys] at this
    exact this
  refine ⟨hperm, hnd, ?_⟩
  have hlen := hperm.length_eq
  rw [List.length_flatten] at hlen
  rw [hlen, List.length_map, ← hMt]

def C6descA : TaskDesc :=
  { id := some "a", agent_id := none, task := none, depends_on := some "b" }

def C6descB : TaskDesc :=
  { id := some "b", agent_id := none, task := none, depends_on := some "a" }

/-- Submission of a two-task dependency cycle `a ↔ b`. -/
def C6okState : Scheduler :=
  match Scheduler.submit_mission { missions := [] } "mc" [C6descA, C6descB]
      (fun _ => "uuid") "t0" with
  | .ok s => s
  | .error _ => { missions := [] }

def C6mission : Mission :=
  match alookup "mc" C6okState.missions with
  | some m => m
  | none => emptyMission

/-- Witness for C6 at a two-task dependency cycle (the permissive fallback
emits both tasks as one final wave; the wave lengths still sum to
`total_tasks`). -/
theorem C6_levels_partition_witness :
    C6mission.levels.flatten.Perm (C6mission.tasks.map Prod.fst) ∧
    (C6mission.levels.map List.length).sum = C6mission.total_tasks := by
  have h := C6_levels_partition { missions := [] } C6okState "mc" "t0"
    (fun _ => "uuid") [C6descA, C6descB] C6mission (by rfl) (by decide)
  exact ⟨h.1, h.2.2⟩

/-! ## Vector memory (`vector.rs`) -/

def MAX_MEMORY_ENTRIES : Nat := 10000
def MAX_TAGS : Nat := 20
def MAX_TAG_LENGTH : Nat := 50

/-- A stored memory record.  `f32`/`f64` numbers are modelled as `ℚ`. -/
structure MemoryEntry where
  text : String
  vector : List ℚ
  tags : String
  timestamp : ℚ
  source : String
  temporal_type : String
  valid_from : ℚ
  valid_to : ℚ
  entity_type : String
  entity_id : String
deriving DecidableEq

/-- The `VectorMemoryError` variants reachable from `store` (the HTTP / JSON /
IO transport failures are folded into `embeddingApiError`, which is how the
embedding call surfaces them to `store`). -/
inductive VectorMemoryError where
  | embedderNotConfigured
  | invalidTag (tag : String)
  | embeddingApiError (msg : String)
deriving DecidableEq

/-- One character class of `TAG_REGEX = ^[a-zA-Z0-9_\-]+$`. -/
def tagCharOk (c : Char) : Bool :=
  c.isAlphanum || c = '_' || c = '-'

/-- `TAG_REGEX.is_match`: non-empty and every character in the class. -/
def tagMatchesRegex (t : String) : Bool :=
  !t.data.isEmpty && t.data.all tagCharOk

/-- `validate_tags`: empty string passes; otherwise comma-split and trim, at
most 20 tags, each at most 50 characters and matching the tag regex.  (Rust
`len()` counts bytes; valid tags are ASCII, where bytes = characters.) -/
def validate_tags (tags : String) : Except VectorMemoryError Unit :=
  if tags.data.isEmpty then .ok ()
  else
    let tag_list := (splitCommaChars tags.data).map (fun cs => String.mk (trimChars cs))
    if MAX_TAGS < tag_list.length then
      .error (.invalidTag "too many tags")
    else
      match tag_list.find?
          (fun tag => MAX_TAG_LENGTH < tag.data.length || !tagMatchesRegex tag) with
      | some tag => .error (.invalidTag tag)
      | none => .ok ()

/-! ### Persistence (`save_to_disk` / `load_from_disk`, C7)

`serde_json::to_string` / `from_str` are modelled at the JSON-value level:
one `Json` value per line of the file (serde's string rendering of a value
round-trips, and a rendered value never spans lines because string contents
are escaped). -/

inductive Json where
  | null
  | bool (b : Bool)
  | num (q : ℚ)
  | str (s : String)
  | arr (elems : List Json)
  | obj (fields : List (String × Json))

/-- The derived `Serialize` impl for `MemoryEntry`. -/
def encodeEntry (e : MemoryEntry) : Json :=
  .obj [("text", .str e.text), ("vector", .arr (e.vector.map Json.num)),
        ("tags", .str e.tags), ("timestamp", .num e.timestamp),
        ("source", .str e.source), ("temporal_type", .str e.temporal_type),
        ("valid_from", .num e.valid_from), ("valid_to", .num e.valid_to),
        ("entity_type", .str e.entity_type), ("entity_id", .str e.entity_id)]

def Json.asStr : Json → Option String
  | .str s => some s
  | _ => none

def Json.asNum : Json → Option ℚ
  | .num q => some q
  | _ => none

def decodeNums : List Json → Option (List ℚ)
  | [] => some []
  | j :: js =>
    match j.asNum, decodeNums js with
    | some q, some qs => some (q :: qs)
    | _, _ => none

def Json.asVec : Json → Option (List ℚ)
  | .arr xs => decodeNums xs
  | _ => none

/-- The derived `Deserialize` impl for `MemoryEntry`: extract every field by
key (order-insensitive, as serde is), requiring each to be present with the
right type. -/
def decodeEntry : Json → Option MemoryEntry
  | .obj fields =>
    match (alookup "text" fields).bind Json.asStr,
        (alookup "vector" fields).bind Json.asVec,
        (alookup "tags" fields).bind Json.asStr,
        (alookup "timestamp" fields).bind Json.asNum,
        (alookup "source" fields).bind Json.asStr,
        (alookup "temporal_type" fields).bind Json.asStr,
        (alookup "valid_from" fields).bind Json.asNum,
        (alookup "valid_to" fields).bind Json.asNum,
        (alookup "entity_type" fields).bind Json.asStr,
        (alookup "entity_id" fields).bind Json.asStr with
    | some text, some vector, some tags, some timestamp, some source,
      some temporal_type, some valid_from, some valid_to, some entity_type,
      some entity_id =>
      some { text := text, vector := vector, tags := tags,
             timestamp := timestamp, source := source,
             temporal_type := temporal_type, valid_from := valid_from,
             valid_to := valid_to, entity_type := entity_type,
             entity_id := entity_id }
    | _, _, _, _, _, _, _, _, _, _ => none
  | _ => none

/-- `save_to_disk`: truncate and write every entry, one JSON line each. -/
def save_to_disk (entries : List MemoryEntry) : List Json :=
  entries.map encodeEntry

/-- `load_from_disk`: parse each line, silently skipping unparsable ones. -/
def load_from_disk (lines : List Json) : List MemoryEntry :=
  lines.filterMap decodeEntry

theorem decodeNums_encode (v : List ℚ) : decodeNums (v.map Json.num) = some v := by
  induction v with
  | nil => rfl
  | cons x xs ih => simp [decodeNums, Json.asNum, ih]

theorem decodeEntry_encodeEntry (e : MemoryEntry) :
    decodeEntry (encodeEntry e) = some e := by
  cases e with
  | mk text vector tags timestamp source temporal_type valid_from valid_to
      entity_type entity_id =>
    simp only [encodeEntry, decodeEntry]
    rw [show (alookup "vector"
      [("text", Json.str text), ("vector", Json.arr (vector.map Json.num)),
       ("tags", Json.str tags), ("timestamp", Json.num timestamp),
       ("source", Json.str source), ("temporal_type", Json.str temporal_type),
       ("valid_from", Json.num valid_from), ("valid_to", Json.num valid_to),
       ("entity_type", Json.str entity_type),
       ("entity_id", Json.str entity_id)]).bind Json.asVec
       = some vector from by
      show (Json.arr (vector.map Json.num)).asVec = some vector
      simp [Json.asVec, decodeNums_encode]]
    rfl

/-- C7: reloading the persistence file written from any entry list yields
exactly that list, same entries in the same order. -/
theorem C7_load_save_roundtrip (entries : List MemoryEntry) :
    load_from_disk (save_to_disk entries) = entries := by
  induction entries with
  | nil => rfl
  | cons e es ih =>
    simp [save_to_disk, load_from_disk, decodeEntry_encodeEntry] at ih ⊢
    exact ih

/-! ### The normalised matrix (`build_vector_matrix`, C4)

`f32` arithmetic is modelled over `ℝ` (the stored coordinates stay `ℚ`).
The Rust code allocates an `(N, dim)` zero matrix with `dim` taken from the
first entry and copies each entry\'s coordinates in, so a row is the entry\'s
vector truncated / zero-padded to `dim` (an entry longer than `dim` would
panic in Rust; the model truncates). -/

def sumSqQ (v : List ℚ) : ℚ := (v.map (fun x => x * x)).sum

/-- Row `i` of the freshly zeroed matrix after the copy loop. -/
def rowOf (dim : Nat) (v : List ℚ) : List ℚ :=
  (List.range dim).map (fun j => v.getD j 0)

/-- The per-row normalisation pass: divide by the L2 norm when it is
positive, else leave the row untouched. -/
noncomputable def normalizeRow (v : List ℚ) : List ℝ :=
  if 0 < Real.sqrt ((sumSqQ v : ℚ) : ℝ) then
    v.map (fun (x : ℚ) => (x : ℝ) / Real.sqrt ((sumSqQ v : ℚ) : ℝ))
  else v.map (fun (x : ℚ) => (x : ℝ))

noncomputable def build_vector_matrix (entries : List MemoryEntry) :
    Option (List (List ℝ)) :=
  match entries with
  | [] => none
  | e0 :: _ =>
    let dim := e0.vector.length
    if dim = 0 then none
    else some (entries.map (fun e => normalizeRow (rowOf dim e.vector)))

noncomputable def l2norm (r : List ℝ) : ℝ :=
  Real.sqrt ((r.map (fun x => x * x)).sum)

theorem sumSqQ_nonneg (v : List ℚ) : 0 ≤ sumSqQ v := by
  induction v with
  | nil => simp [sumSqQ]
  | cons x xs ih =>
    simp only [sumSqQ, List.map_cons, List.sum_cons] at ih ⊢
    exact add_nonneg (mul_self_nonneg x) ih

theorem sumSqQ_eq_zero {v : List ℚ} (h : sumSqQ v = 0) : ∀ q ∈ v, q = 0 := by
  induction v with
  | nil => intro q hq; cases hq
  | cons x xs ih =>
    simp only [sumSqQ, List.map_cons, List.sum_cons] at h
    have hx : 0 ≤ x * x := mul_self_nonneg x
    have hxs : 0 ≤ sumSqQ xs := sumSqQ_nonneg xs
    have hx0 : x * x = 0 := by
      simp only [sumSqQ] at hxs
      linarith
    have hs0 : sumSqQ xs = 0 := by
      simp only [sumSqQ] at hxs ⊢
      linarith
    intro q hq
    rcases List.mem_cons.1 hq with rfl | hq'
    · exact mul_self_eq_zero.1 hx0
    · exact ih hs0 q hq'

theorem sumsq_map_div (c : ℝ) (v : List ℚ) :
    (((v.map (fun (x : ℚ) => (x : ℝ) / c)).map (fun x => x * x)).sum)
      = ((sumSqQ v : ℚ) : ℝ) / (c * c) := by
  induction v with
  | nil => simp [sumSqQ]
  | cons x xs ih =>
    rw [List.map_cons, List.map_cons, List.sum_cons]
    rw [ih]
    have hsum : sumSqQ (x :: xs) = x * x + sumSqQ xs := by simp [sumSqQ]
    rw [div_mul_div_comm, div_add_div_same, hsum]
    push_cast
    ring

/-- A nondegenerate row has exact unit norm after normalisation. -/
theorem l2norm_normalizeRow {v : List ℚ} (h : sumSqQ v ≠ 0) :
    l2norm (normalizeRow v) = 1 := by
  have hpos : (0 : ℚ) < sumSqQ v := lt_of_le_of_ne (sumSqQ_nonneg v) (Ne.symm h)
  have hposR : (0 : ℝ) < ((sumSqQ v : ℚ) : ℝ) := by exact_mod_cast hpos
  have hsqrt : (0 : ℝ) < Real.sqrt ((sumSqQ v : ℚ) : ℝ) := Real.sqrt_pos.2 hposR
  rw [normalizeRow, if_pos hsqrt, l2norm]
  rw [sumsq_map_div]
  rw [Real.mul_self_sqrt hposR.le]
  rw [div_self hposR.ne']
  exact Real.sqrt_one

/-- A zero row stays a zero row. -/
theorem normalizeRow_of_zero {v : List ℚ} (h : sumSqQ v = 0) :
    ∀ x ∈ normalizeRow v, x = 0 := by
  intro x hx
  have hs : Real.sqrt ((sumSqQ v : ℚ) : ℝ) = 0 := by
    rw [h]; simp
  rw [normalizeRow, hs, if_neg (lt_irrefl 0)] at hx
  rcases List.mem_map.1 hx with ⟨q, hq, hqx⟩
  rw [← hqx, sumSqQ_eq_zero h q hq]
  exact Rat.cast_zero

/-- Every row of a built matrix that is not identically zero has unit
L2 norm. -/
theorem build_vector_matrix_rows {entries : List MemoryEntry}
    {M : List (List ℝ)} (h : build_vector_matrix entries = some M) :
    ∀ row ∈ M, (∃ x ∈ row, x ≠ 0) → l2norm row = 1 := by
  unfold build_vector_matrix at h
  match entries, h with
  | e0 :: rest, h =>
    dsimp only at h
    by_cases hdim : e0.vector.length = 0
    · rw [if_pos hdim] at h; cases h
    · rw [if_neg hdim] at h
      have hM : M = (e0 :: rest).map
          (fun e => normalizeRow (rowOf e0.vector.length e.vector)) := by
        simpa using h.symm
      subst hM
      intro row hrow hx
      rcases List.mem_map.1 hrow with ⟨e, _, hrow_eq⟩
      rcases hx with ⟨x, hxmem, hxne⟩
      by_cases hz : sumSqQ (rowOf e0.vector.length e.vector) = 0
      · exfalso
        apply hxne
        apply normalizeRow_of_zero hz
        rw [hrow_eq]; exact hxmem
      · rw [← hrow_eq]
        exact l2norm_normalizeRow hz

/-! ### Store state machine (`store`, C4 and C9) -/

/-- The mutable fields of `VectorMemoryInner`, plus the persistence file
contents (`disk`).  Best-effort disk writes are modelled as succeeding; the
Rust code swallows their errors either way. -/
structure VMState where
  entries : List MemoryEntry
  vectors : Option (List (List ℝ))
  api_base : Option String
  embed_model : Option String
  disk : List Json

/-- All the inputs of one `store` call: the Python-facing arguments, the
answer of the embedding endpoint (external I/O), and the captured wall
clock. -/
structure StoreOp where
  text : String
  tags : Option String
  temporal_type : Option String
  valid_from : Option ℚ
  valid_to : Option ℚ
  entity_type : Option String
  entity_id : Option String
  source : Option String
  embedOutcome : Except String (List ℚ)
  now : ℚ

/-- The `while inner.entries.len() >= MAX_MEMORY_ENTRIES { remove(0) }`
loop. -/
def evictFront : List MemoryEntry → List MemoryEntry
  | [] => []
  | e :: rest =>
    if MAX_MEMORY_ENTRIES ≤ (e :: rest).length then evictFront rest
    else e :: rest

/-- One `store` call: validate tags, require a configured embedder, embed,
then (and only then) evict, append, rebuild the matrix, and rewrite the
persistence file.  Returns the state after the call and the result the
caller sees. -/
noncomputable def store (st : VMState) (op : StoreOp) :
    VMState × Except VectorMemoryError Nat :=
  let tags := op.tags.getD ""
  match validate_tags tags with
  | .error e => (st, .error e)
  | .ok _ =>
    match st.api_base, st.embed_model with
    | some _, some _ =>
      match op.embedOutcome with
      | .error msg => (st, .error (.embeddingApiError msg))
      | .ok vector =>
        let entry : MemoryEntry :=
          { text := op.text, vector := vector, tags := tags,
            timestamp := op.now, source := op.source.getD "internal",
            temporal_type := op.temporal_type.getD "",
            valid_from := op.valid_from.getD 0, valid_to := op.valid_to.getD 0,
            entity_type := op.entity_type.getD "",
            entity_id := op.entity_id.getD "" }
        let newEntries := evictFront st.entries ++ [entry]
        ({ entries := newEntries,
           vectors := build_vector_matrix newEntries,
           api_base := st.api_base, embed_model := st.embed_model,
           disk := save_to_disk newEntries }, .ok (newEntries.length - 1))
    | _, _ => (st, .error .embedderNotConfigured)

noncomputable def runStores (st : VMState) (ops : List StoreOp) : VMState :=
  ops.foldl (fun s op => (store s op).1) st

/-- C9: whenever `store` fails — invalid tag, embedder not configured, or a
failed embedding call — the entry list, the matrix and the persistence file
are all left exactly as they were (every error return happens before any
mutation). -/
theorem C9_store_error_no_mutation (st : VMState) (op : StoreOp)
    (e : VectorMemoryError) (h : (store st op).2 = .error e) :
    (store st op).1 = st := by
  unfold store at h ⊢
  cases hval : validate_tags (op.tags.getD "") with
  | error e' => simp [hval]
  | ok u =>
    cases u
    simp only [hval] at h ⊢
    cases hab : st.api_base with
    | none => simp [hab]
    | some a =>
      cases hem : st.embed_model with
      | none => simp [hab, hem]
      | some b =>
        cases hout : op.embedOutcome with
        | error msg => simp [hab, hem, hout]
        | ok vec =>
          simp only [hab, hem, hout] at h
          cases h

def C9state : VMState :=
  { entries := [], vectors := none, api_base := none, embed_model := none,
    disk := [] }

def C9op : StoreOp :=
  { text := "hello", tags := none, temporal_type := none, valid_from := none,
    valid_to := none, entity_type := none, entity_id := none, source := none,
    embedOutcome := .ok [1, 0], now := 0 }

/-- Witness for C9: storing without a configured embedder errors and leaves
the state untouched. -/
theorem C9_store_error_no_mutation_witness :
    (store C9state C9op).2 = .error .embedderNotConfigured ∧
    (store C9state C9op).1 = C9state :=
  ⟨rfl, C9_store_error_no_mutation C9state C9op .embedderNotConfigured rfl⟩

/-- Each `store` call keeps `vectors` equal to the matrix rebuilt from
`entries` (errors change nothing; success rebuilds). -/
theorem store_vectors_inv (st : VMState) (op : StoreOp)
    (h : st.vectors = build_vector_matrix st.entries) :
    (store st op).1.vectors = build_vector_matrix (store st op).1.entries := by
  unfold store
  dsimp only
  cases hval : validate_tags (op.tags.getD "") with
  | error e' => exact h
  | ok u =>
    cases u
    cases hab : st.api_base with
    | none => exact h
    | some a =>
      cases hem : st.embed_model with
      | none => exact h
      | some b =>
        cases hout : op.embedOutcome with
        | error msg => exact h
        | ok vec => rfl

theorem runStores_vectors_inv (ops : List StoreOp) :
    ∀ st : VMState, st.vectors = build_vector_matrix st.entries →
      (runStores st ops).vectors = build_vector_matrix (runStores st ops).entries := by
  induction ops with
  | nil => exact fun st h => h
  | cons op ops ih => exact fun st h => ih _ (store_vectors_inv st op h)

/-- C4 (amended): after any sequence of `store` calls from a state whose
matrix matches its entries (as `new` guarantees), every row of the in-memory
matrix that is not identically zero has L2 norm within 10⁻⁵ of 1 (exactly 1
in exact arithmetic).  A zero embedding vector is skipped by the
normalisation guard `norm > 0.0` and keeps L2 norm 0 — see the
counterexample. -/
theorem C4_matrix_rows_normalized (init : VMState) (ops : List StoreOp)
    (hinit : init.vectors = build_vector_matrix init.entries)
    (M : List (List ℝ)) (hM : (runStores init ops).vectors = some M) :
    ∀ row ∈ M, (∃ x ∈ row, x ≠ 0) →
      |l2norm row - 1| ≤ 1 / 100000 := by
  rw [runStores_vectors_inv ops init hinit] at hM
  intro row hrow hx
  rw [build_vector_matrix_rows hM row hrow hx]
  norm_num

def C4cfgState : VMState :=
  { entries := [], vectors := none, api_base := some "http://embed",
    embed_model := some "m", disk := [] }

def C4zeroOp : StoreOp :=
  { text := "z", tags := none, temporal_type := none, valid_from := none,
    valid_to := none, entity_type := none, entity_id := none, source := none,
    embedOutcome := .ok [0, 0], now := 0 }

/-- C4 counterexample: storing the zero embedding `[0, 0]` leaves a matrix
row of L2 norm 0, not within 10⁻⁵ of 1. -/
theorem C4_zero_vector_breaks_claim :
    ∃ M, (runStores C4cfgState [C4zeroOp]).vectors = some M ∧
      ∃ row ∈ M, ¬ (|l2norm row - 1| ≤ 1 / 100000) := by
  refine ⟨[normalizeRow (rowOf 2 [0, 0])], rfl,
    normalizeRow (rowOf 2 [0, 0]), List.mem_singleton.2 rfl, ?_⟩
  have hz : sumSqQ (rowOf 2 [(0 : ℚ), 0]) = 0 := by
    simp [sumSqQ, rowOf, List.range_succ]
  have hs : Real.sqrt ((sumSqQ (rowOf 2 [(0 : ℚ), 0]) : ℚ) : ℝ) = 0 := by
    rw [hz]; simp
  have hrow : normalizeRow (rowOf 2 [(0 : ℚ), 0]) = [(0 : ℝ), 0] := by
    rw [normalizeRow, hs, if_neg (lt_irrefl 0)]
    rw [show rowOf 2 [(0 : ℚ), 0] = [0, 0] from by
      simp [rowOf, List.range_succ]]
    norm_num
  rw [hrow]
  have hl : l2norm [(0 : ℝ), 0] = 0 := by
    rw [l2norm]
    norm_num
  rw [hl]
  norm_num

def C4oneOp : StoreOp :=
  { text := "e1", tags := none, temporal_type := none, valid_from := none,
    valid_to := none, entity_type := none, entity_id := none, source := none,
    embedOutcome := .ok [1, 0], now := 0 }

/-- Witness for C4 after storing the unit embedding `[1, 0]`. -/
theorem C4_matrix_rows_normalized_witness :
    (runStores C4cfgState [C4oneOp]).vectors
        = some [normalizeRow (rowOf 2 [1, 0])] ∧
    |l2norm (normalizeRow (rowOf 2 [1, 0])) - 1| ≤ 1 / 100000 := by
  constructor
  · rfl
  · refine C4_matrix_rows_normalized C4cfgState [C4oneOp] rfl
      [normalizeRow (rowOf 2 [1, 0])] rfl (normalizeRow (rowOf 2 [1, 0]))
      (List.mem_singleton.2 rfl) ?_
    have h1 : sumSqQ (rowOf 2 [(1 : ℚ), 0]) = 1 := by
      simp [sumSqQ, rowOf, List.range_succ]
    have hs : Real.sqrt ((sumSqQ (rowOf 2 [(1 : ℚ), 0]) : ℚ) : ℝ) = 1 := by
      rw [h1]; simp
    have hrow : normalizeRow (rowOf 2 [(1 : ℚ), 0]) = [(1 : ℝ), 0] := by
      rw [normalizeRow, hs, if_pos one_pos]
      rw [show rowOf 2 [(1 : ℚ), 0] = [1, 0] from by
        simp [rowOf, List.range_succ]]
      norm_num
    rw [hrow]
    exact ⟨1, by simp, one_ne_zero⟩

/-!
## Message bus (`messages.rs`)

The SQLite table `agent_messages` is modelled as a list of rows in
insertion order.  RFC-3339 timestamps compare chronologically exactly when
they compare lexicographically, so `created_at` is modelled as a `Nat`
supplied by the caller (`now`), strictly increasing across `send` calls in
the theorems that need it.  `detect_injection` runs an external regex
engine, so its verdict is passed in as a boolean.
-/

/-- One row of the `agent_messages` table. -/
structure AgentMessage where
  id : String
  msg_type : String
  sender : String
  recipient : String
  mission_id : String
  priority : Int
  content : String
  payload : String
  created_at : Nat
  processed_at : Option Nat
deriving DecidableEq, Repr

abbrev MessageBus := List AgentMessage

/-- `MessageBus::send`: build the row and INSERT it.  `id` stands for the
12-character UUID prefix, `hasInjection` for `detect_injection(&content)`,
`now` for `Utc::now()`.  Returns the new table and the id. -/
def MessageBus.send (bus : MessageBus) (id msg_type sender recipient mission_id
    content : String) (priority : Option Int) (hasInjection : Bool)
    (now : Nat) : MessageBus × String :=
  let payload :=
    if hasInjection then "\x7b\"_injection_warning\": true\x7d" else "\x7b\x7d"
  let row : AgentMessage :=
    { id := id, msg_type := msg_type, sender := sender, recipient := recipient,
      mission_id := mission_id, priority := priority.getD 1, content := content,
      payload := payload, created_at := now, processed_at := none }
  (bus ++ [row], id)

/-- The `WHERE recipient = ?1 AND processed_at IS NULL` filter. -/
def isPendingFor (r : String) (m : AgentMessage) : Bool :=
  m.recipient == r && m.processed_at == none

def pendingFor (bus : MessageBus) (r : String) : List AgentMessage :=
  bus.filter (isPendingFor r)

/-- `a` sorts strictly before `b` under `ORDER BY priority DESC,
created_at ASC`. -/
def PopOrder (a b : AgentMessage) : Prop :=
  b.priority < a.priority ∨
    (a.priority = b.priority ∧ a.created_at < b.created_at)

instance (a b : AgentMessage) : Decidable (PopOrder a b) := by
  unfold PopOrder; infer_instance

/-- `LIMIT 1` under the pop ordering: a minimal element of the candidate
list.  SQLite leaves the order of full ties unspecified; this model keeps
the later row on a full tie, and the theorems assume tie-free inputs. -/
def selectTop : List AgentMessage → Option AgentMessage
  | [] => none
  | m :: ms =>
    match selectTop ms with
    | none => some m
    | some b => if PopOrder b m then some b else some m

/-- `UPDATE agent_messages SET processed_at = ?1 WHERE id = ?2`. -/
def markProcessed (bus : MessageBus) (id : String) (now : Nat) : MessageBus :=
  bus.map (fun x => if x.id == id then { x with processed_at := some now } else x)

/-- `MessageBus::pop_next`: SELECT the top pending row for the recipient,
and if one exists mark it processed. -/
def pop_next (bus : MessageBus) (agent_id : String) (now : Nat) :
    Option AgentMessage × MessageBus :=
  match selectTop (pendingFor bus agent_id) with
  | none => (none, bus)
  | some m => (some m, markProcessed bus m.id now)

/-- `n` successive `pop_next` calls for one recipient (at increasing
times), collecting the returned messages until the queue is empty. -/
def popSeq : Nat → MessageBus → String → Nat → List AgentMessage
  | 0, _, _, _ => []
  | n + 1, bus, r, now =>
    match pop_next bus r now with
    | (none, _) => []
    | (some m, bus') => m :: popSeq n bus' r (now + 1)

theorem popOrder_irrefl (a : AgentMessage) : ¬ PopOrder a a := by
  unfold PopOrder; omega

theorem popOrder_asymm {a b : AgentMessage} (h : PopOrder a b) :
    ¬ PopOrder b a := by
  unfold PopOrder at *; omega

theorem popOrder_neg_trans {a b c : AgentMessage}
    (h1 : ¬ PopOrder a b) (h2 : ¬ PopOrder b c) : ¬ PopOrder a c := by
  unfold PopOrder at *; omega

theorem popOrder_total {a b : AgentMessage}
    (h : ¬(a.priority = b.priority ∧ a.created_at = b.created_at)) :
    PopOrder a b ∨ PopOrder b a := by
  unfold PopOrder; omega

theorem selectTop_ne_none (m₀ : AgentMessage) (ms : List AgentMessage) :
    selectTop (m₀ :: ms) ≠ none := by
  simp only [selectTop]
  cases selectTop ms with
  | none => simp
  | some b =>
    dsimp only
    by_cases hb : PopOrder b m₀
    · rw [if_pos hb]; simp
    · rw [if_neg hb]; simp

theorem selectTop_mem : ∀ {l : List AgentMessage} {b : AgentMessage},
    selectTop l = some b → b ∈ l := by
  intro l
  induction l with
  | nil => intro b h; cases h
  | cons m ms ih =>
    intro b h
    simp only [selectTop] at h
    cases hs : selectTop ms with
    | none =>
      rw [hs] at h
      dsimp only at h
      injection h with h'
      exact h' ▸ List.mem_cons_self m ms
    | some b' =>
      rw [hs] at h
      dsimp only at h
      by_cases hb : PopOrder b' m
      · rw [if_pos hb] at h
        injection h with h'
        exact h' ▸ List.mem_cons_of_mem m (ih hs)
      · rw [if_neg hb] at h
        injection h with h'
        exact h' ▸ List.mem_cons_self m ms

theorem selectTop_min : ∀ {l : List AgentMessage} {b : AgentMessage},
    selectTop l = some b → ∀ x ∈ l, ¬ PopOrder x b := by
  intro l
  induction l with
  | nil => intro b h; cases h
  | cons m ms ih =>
    intro b h x hx
    simp only [selectTop] at h
    cases hs : selectTop ms with
    | none =>
      rw [hs] at h
      dsimp only at h
      injection h with h'
      have hnil : ms = [] := by
        cases ms with
        | nil => rfl
        | cons y ys => exact absurd hs (selectTop_ne_none y ys)
      subst hnil
      rcases List.mem_cons.1 hx with rfl | hx'
      · exact h' ▸ popOrder_irrefl x
      · cases hx'
    | some b' =>
      rw [hs] at h
      dsimp only at h
      by_cases hb : PopOrder b' m
      · rw [if_pos hb] at h
        injection h with h'
        subst h'
        rcases List.mem_cons.1 hx with rfl | hx'
        · exact popOrder_asymm hb
        · exact ih hs x hx'
      · rw [if_neg hb] at h
        injection h with h'
        subst h'
        rcases List.mem_cons.1 hx with rfl | hx'
        · exact popOrder_irrefl x
        · exact popOrder_neg_trans (ih hs x hx') hb

/-- Marking one id processed leaves every row id unchanged. -/
theorem markProcessed_map_id (bus : MessageBus) (id : String) (now : Nat) :
    (markProcessed bus id now).map AgentMessage.id = bus.map AgentMessage.id := by
  induction bus with
  | nil => rfl
  | cons x bus ih =>
    simp only [markProcessed, List.map_cons] at ih ⊢
    rw [ih]
    by_cases hx : x.id == id
    · rw [if_pos hx]
    · rw [if_neg hx]

/-- After marking the popped id processed, the pending queue is the old
pending queue without that id. -/
theorem pendingFor_markProcessed (bus : MessageBus) (id : String) (now : Nat)
    (r : String) :
    pendingFor (markProcessed bus id now) r
      = (pendingFor bus r).filter (fun x => !(x.id == id)) := by
  induction bus with
  | nil => rfl
  | cons x bus ih =>
    by_cases hx : x.id = id
    · have h1 : pendingFor (markProcessed (x :: bus) id now) r
          = pendingFor (markProcessed bus id now) r := by
        simp [markProcessed, pendingFor, List.filter_cons, isPendingFor, hx]
      by_cases hp : isPendingFor r x = true
      · have h2 : (pendingFor (x :: bus) r).filter (fun y => !(y.id == id))
            = (pendingFor bus r).filter (fun y => !(y.id == id)) := by
          simp [pendingFor, List.filter_cons, hp, hx]
        rw [h1, h2, ih]
      · have h2 : (pendingFor (x :: bus) r).filter (fun y => !(y.id == id))
            = (pendingFor bus r).filter (fun y => !(y.id == id)) := by
          simp [pendingFor, List.filter_cons, hp]
        rw [h1, h2, ih]
    · by_cases hp : isPendingFor r x = true
      · have h1 : pendingFor (markProcessed (x :: bus) id now) r
            = x :: pendingFor (markProcessed bus id now) r := by
          simp [markProcessed, pendingFor, List.filter_cons, hx, hp]
        have h2 : (pendingFor (x :: bus) r).filter (fun y => !(y.id == id))
            = x :: (pendingFor bus r).filter (fun y => !(y.id == id)) := by
          simp [pendingFor, List.filter_cons, hp, hx]
        rw [h1, h2, ih]
      · have h1 : pendingFor (markProcessed (x :: bus) id now) r
            = pendingFor (markProcessed bus id now) r := by
          simp [markProcessed, pendingFor, List.filter_cons, hx, hp]
        have h2 : (pendingFor (x :: bus) r).filter (fun y => !(y.id == id))
            = (pendingFor bus r).filter (fun y => !(y.id == id)) := by
          simp [pendingFor, List.filter_cons, hp]
        rw [h1, h2, ih]

/-- Removing one member of an id-distinct list by its id is a permutation:
the list is the member plus the id-filtered rest. -/
theorem perm_cons_filter_of_mem : ∀ {l : List AgentMessage} {m : AgentMessage},
    (l.map AgentMessage.id).Nodup → m ∈ l →
    l.Perm (m :: l.filter (fun x => !(x.id == m.id))) := by
  intro l
  induction l with
  | nil => intro m _ hm; cases hm
  | cons y ys ih =>
    intro m hnd hm
    rw [List.map_cons, List.nodup_cons] at hnd
    rcases List.mem_cons.1 hm with rfl | hm'
    · have hf : List.filter (fun x => !(x.id == m.id)) (m :: ys)
          = List.filter (fun x => !(x.id == m.id)) ys := by
        simp [List.filter_cons]
      rw [hf]
      refine List.Perm.cons m ?_
      rw [List.filter_eq_self.2 ?_]
      intro x hx
      have hne : x.id ≠ m.id := by
        intro he
        exact hnd.1 (he ▸ List.mem_map_of_mem AgentMessage.id hx)
      simp [hne]
    · have hyid : y.id ≠ m.id := by
        intro he
        exact hnd.1 (by rw [he]; exact List.mem_map_of_mem AgentMessage.id hm')
      have hf : List.filter (fun x => !(x.id == m.id)) (y :: ys)
          = y :: List.filter (fun x => !(x.id == m.id)) ys := by
        simp [List.filter_cons, hyid]
      rw [hf]
      exact ((ih hnd.2 hm').cons y).trans (List.Perm.swap m y _)

theorem pendingFor_map_id_nodup {bus : MessageBus}
    (h : (bus.map AgentMessage.id).Nodup) (r : String) :
    ((pendingFor bus r).map AgentMessage.id).Nodup :=
  h.sublist ((List.filter_sublist bus).map AgentMessage.id)

/-- Selection-sort correctness of repeated `pop_next`: with distinct row
ids and tie-free sort keys among the pending rows, popping until the queue
is empty returns exactly the pending rows, each pair in strict
`(priority DESC, created_at ASC)` order. -/
theorem popSeq_spec : ∀ (n : Nat) (bus : MessageBus) (r : String) (now : Nat),
    (pendingFor bus r).length = n →
    (bus.map AgentMessage.id).Nodup →
    (pendingFor bus r).Pairwise
      (fun a b => ¬(a.priority = b.priority ∧ a.created_at = b.created_at)) →
    (popSeq n bus r now).Perm (pendingFor bus r) ∧
      (popSeq n bus r now).Pairwise PopOrder := by
  intro n
  induction n with
  | zero =>
    intro bus r now hlen _ _
    have hnil : pendingFor bus r = [] := List.length_eq_zero.1 hlen
    refine ⟨?_, List.Pairwise.nil⟩
    rw [hnil]
    exact List.Perm.nil
  | succ n ih =>
    intro bus r now hlen hids hkeys
    obtain ⟨m, hsel⟩ : ∃ m, selectTop (pendingFor bus r) = some m := by
      cases hp : pendingFor bus r with
      | nil => rw [hp] at hlen; cases hlen
      | cons a as =>
        cases hq : selectTop (a :: as) with
        | none => exact absurd hq (selectTop_ne_none a as)
        | some b => exact ⟨b, rfl⟩
    have hstep : popSeq (n + 1) bus r now
        = m :: popSeq n (markProcessed bus m.id now) r (now + 1) := by
      simp [popSeq, pop_next, hsel]
    have hmem : m ∈ pendingFor bus r := selectTop_mem hsel
    have hpend' : pendingFor (markProcessed bus m.id now) r
        = (pendingFor bus r).filter (fun x => !(x.id == m.id)) :=
      pendingFor_markProcessed bus m.id now r
    have hperm : (pendingFor bus r).Perm
        (m :: (pendingFor bus r).filter (fun x => !(x.id == m.id))) :=
      perm_cons_filter_of_mem (pendingFor_map_id_nodup hids r) hmem
    have hlen' : (pendingFor (markProcessed bus m.id now) r).length = n := by
      rw [hpend']
      have h1 := hperm.length_eq
      rw [List.length_cons] at h1
      omega
    have hids' : ((markProcessed bus m.id now).map AgentMessage.id).Nodup := by
      rw [markProcessed_map_id]
      exact hids
    have hkeys' : (pendingFor (markProcessed bus m.id now) r).Pairwise
        (fun a b => ¬(a.priority = b.priority ∧ a.created_at = b.created_at)) := by
      rw [hpend']
      exact hkeys.sublist (List.filter_sublist _)
    obtain ⟨ihp, ihw⟩ := ih (markProcessed bus m.id now) r (now + 1) hlen' hids' hkeys'
    constructor
    · rw [hstep]
      have hback : (m :: pendingFor (markProcessed bus m.id now) r).Perm
          (pendingFor bus r) := by
        rw [hpend']
        exact hperm.symm
      exact (ihp.cons m).trans hback
    · rw [hstep]
      refine List.Pairwise.cons ?_ ihw
      intro x hxm
      have hxp : x ∈ pendingFor (markProcessed bus m.id now) r :=
        ihp.mem_iff.1 hxm
      rw [hpend'] at hxp
      have hxpend : x ∈ pendingFor bus r := List.mem_of_mem_filter hxp
      have hxid : x.id ≠ m.id := by
        have hfl := List.of_mem_filter hxp
        simpa using hfl
      have hxne : x ≠ m := fun he => hxid (congrArg AgentMessage.id he)
      have hnmin : ¬ PopOrder x m := selectTop_min hsel x hxpend
      have hsym : Symmetric (fun a b : AgentMessage =>
          ¬(a.priority = b.priority ∧ a.created_at = b.created_at)) := by
        intro a b hab hc
        exact hab ⟨hc.1.symm, hc.2.symm⟩
      have hkey : ¬(m.priority = x.priority ∧ m.created_at = x.created_at) :=
        hkeys.forall hsym hmem hxpend (Ne.symm hxne)
      rcases popOrder_total hkey with h | h
      · exact h
      · exact absurd h hnmin

/-- C8: for every recipient whose unprocessed messages have pairwise
distinct `created_at` timestamps (row ids are distinct, as the PRIMARY KEY
guarantees), successive `pop_next` calls return exactly those messages,
ordered by priority descending and, within equal priority, by `created_at`
ascending. -/
theorem C8_pop_next_priority_order (bus : MessageBus) (r : String) (now : Nat)
    (hids : (bus.map AgentMessage.id).Nodup)
    (hts : (pendingFor bus r).Pairwise
      (fun a b => a.created_at ≠ b.created_at)) :
    (popSeq (pendingFor bus r).length bus r now).Perm (pendingFor bus r) ∧
      (popSeq (pendingFor bus r).length bus r now).Pairwise PopOrder :=
  popSeq_spec (pendingFor bus r).length bus r now rfl hids
    (hts.imp fun h hc => h hc.2)

/-- The spec's example bus: `m1` priority 1, then `m2` and `m3` priority 5,
all to recipient `r`, sent at successive times. -/
def C8bus : MessageBus :=
  (MessageBus.send (MessageBus.send (MessageBus.send []
      "m1" "task" "s" "r" "mi" "hello one" (some 1) false 0).1
      "m2" "task" "s" "r" "mi" "hello two" (some 5) false 1).1
      "m3" "task" "s" "r" "mi" "hello three" (some 5) false 2).1

/-- Witness for C8 on the spec's example: three pops return m2, m3, m1. -/
theorem C8_pop_next_priority_order_witness :
    (C8bus.map AgentMessage.id).Nodup ∧
    (pendingFor C8bus "r").Pairwise (fun a b => a.created_at ≠ b.created_at) ∧
    (popSeq (pendingFor C8bus "r").length C8bus "r" 10).map AgentMessage.id
        = ["m2", "m3", "m1"] ∧
    ((popSeq (pendingFor C8bus "r").length C8bus "r" 10).Perm (pendingFor C8bus "r") ∧
      (popSeq (pendingFor C8bus "r").length C8bus "r" 10).Pairwise PopOrder) :=
  ⟨by decide, by decide, by decide,
    C8_pop_next_priority_order C8bus "r" 10 (by decide) (by decide)⟩

/-!
## Streaming adapters (`adapters/openai.rs`, `adapters/ollama.rs`)

Both `call_llm_stream` implementations append each network chunk to a
string buffer and run an inner `while let Some(newline_pos) = buffer.find('\n')`
loop that extracts and trims one line at a time.  The loops are modelled
at the character level; `parse` stands for `serde_json::from_str` on one
line, so the model is parametric in the serde behaviour.  Tokens sent on
the `mpsc` channel are collected into a list in send order.
-/

/-- First `\n` split of the buffer: `buffer.find('\n')` plus the two
slices (line without the newline, remainder after it). -/
def splitFirstNl : List Char → Option (List Char × List Char)
  | [] => none
  | c :: cs =>
    if c = '\n' then some ([], cs)
    else
      match splitFirstNl cs with
      | none => none
      | some p => some (c :: p.1, p.2)

/-- `line.starts_with(pre)` combined with `&line[pre.len()..]`. -/
def dropPrefixChars : List Char → List Char → Option (List Char)
  | [], cs => some cs
  | _, [] => none
  | p :: ps, c :: cs => if c = p then dropPrefixChars ps cs else none

structure OpenAIDelta where
  content : Option String
deriving DecidableEq

structure OpenAIStreamChoice where
  delta : OpenAIDelta
deriving DecidableEq

structure OpenAIStreamChunk where
  choices : List OpenAIStreamChoice
deriving DecidableEq

/-- One trimmed SSE line in the OpenAI adapter: a `data: ` line other than
`[DONE]` is parsed and, for every choice, `if let Some(content) =
choice.delta.content` forwards the content — with no emptiness guard. -/
def openaiProcessLine (parse : String → Option OpenAIStreamChunk)
    (lineChars : List Char) : List String :=
  match dropPrefixChars "data: ".data lineChars with
  | none => []
  | some data =>
    if data = "[DONE]".data then []
    else
      match parse (String.mk data) with
      | none => []
      | some chunk => chunk.choices.filterMap (fun c => c.delta.content)

/-- The OpenAI inner line loop.  Every iteration consumes at least the
newline character, so `buffer.length` fuel makes the function agree with
the `while` loop. -/
def openaiInnerFuel (parse : String → Option OpenAIStreamChunk) :
    Nat → List Char → List String × List Char
  | 0, buf => ([], buf)
  | fuel + 1, buf =>
    match splitFirstNl buf with
    | none => ([], buf)
    | some (lineChars, rest) =>
      (openaiProcessLine parse (trimChars lineChars)
          ++ (openaiInnerFuel parse fuel rest).1,
        (openaiInnerFuel parse fuel rest).2)

/-- The OpenAI outer loop over network chunks: tokens sent on the channel,
in order. -/
def openaiRunChunks (parse : String → Option OpenAIStreamChunk) :
    List String → List Char → List String
  | [], _ => []
  | ch :: rest, buf =>
    (openaiInnerFuel parse (buf ++ ch.data).length (buf ++ ch.data)).1
      ++ openaiRunChunks parse rest
          (openaiInnerFuel parse (buf ++ ch.data).length (buf ++ ch.data)).2

structure OllamaStreamMessage where
  content : String
deriving DecidableEq

structure OllamaStreamChunk where
  message : Option OllamaStreamMessage
  done : Bool
deriving DecidableEq

/-- Tokens one parsed Ollama chunk sends: guarded by
`if !message.content.is_empty()`. -/
def ollamaTokens (chunk : OllamaStreamChunk) : List String :=
  match chunk.message with
  | some m => if m.content == "" then [] else [m.content]
  | none => []

/-- The Ollama inner line loop: empty lines are skipped, unparsable lines
are skipped, and `if chunk.done { break }` leaves the rest of the buffer
for the next network chunk.  Fuel as in `openaiInnerFuel`. -/
def ollamaInnerFuel (parse : String → Option OllamaStreamChunk) :
    Nat → List Char → List String × List Char
  | 0, buf => ([], buf)
  | fuel + 1, buf =>
    match splitFirstNl buf with
    | none => ([], buf)
    | some (lineChars, rest) =>
      if String.mk (trimChars lineChars) == "" then
        ollamaInnerFuel parse fuel rest
      else
        match parse (String.mk (trimChars lineChars)) with
        | none => ollamaInnerFuel parse fuel rest
        | some chunk =>
          if chunk.done then (ollamaTokens chunk, rest)
          else
            (ollamaTokens chunk ++ (ollamaInnerFuel parse fuel rest).1,
              (ollamaInnerFuel parse fuel rest).2)

/-- The Ollama outer loop over network chunks. -/
def ollamaRunChunks (parse : String → Option OllamaStreamChunk) :
    List String → List Char → List String
  | [], _ => []
  | ch :: rest, buf =>
    (ollamaInnerFuel parse (buf ++ ch.data).length (buf ++ ch.data)).1
      ++ ollamaRunChunks parse rest
          (ollamaInnerFuel parse (buf ++ ch.data).length (buf ++ ch.data)).2

theorem ollamaTokens_no_empty (chunk : OllamaStreamChunk) :
    "" ∉ ollamaTokens chunk := by
  unfold ollamaTokens
  cases chunk.message with
  | none => simp
  | some m =>
    dsimp only
    by_cases hc : m.content = ""
    · simp [hc]
    · simp [hc, Ne.symm hc]

theorem ollamaInnerFuel_no_empty (parse : String → Option OllamaStreamChunk) :
    ∀ (fuel : Nat) (buf : List Char), "" ∉ (ollamaInnerFuel parse fuel buf).1 := by
  intro fuel
  induction fuel with
  | zero => intro buf; simp [ollamaInnerFuel]
  | succ fuel ih =>
    intro buf
    simp only [ollamaInnerFuel]
    cases hsp : splitFirstNl buf with
    | none => simp
    | some p =>
      obtain ⟨lineChars, rest⟩ := p
      dsimp only
      by_cases hl : (String.mk (trimChars lineChars) == "") = true
      · rw [if_pos hl]
        exact ih rest
      · rw [if_neg hl]
        cases hpar : parse (String.mk (trimChars lineChars)) with
        | none => exact ih rest
        | some chunk =>
          dsimp only
          by_cases hd : chunk.done = true
          · rw [if_pos hd]
            exact ollamaTokens_no_empty chunk
          · rw [if_neg hd]
            dsimp only
            intro hmem
            rcases List.mem_append.1 hmem with h | h
            · exact ollamaTokens_no_empty chunk h
            · exact ih rest h

/-- The Ollama adapter satisfies the claimed property: no sequence of
network chunks makes it send a zero-length token. -/
theorem ollama_no_empty_token (parse : String → Option OllamaStreamChunk) :
    ∀ (chunks : List String) (buf : List Char),
      "" ∉ ollamaRunChunks parse chunks buf := by
  intro chunks
  induction chunks with
  | nil => intro buf; simp [ollamaRunChunks]
  | cons ch rest ih =>
    intro buf
    simp only [ollamaRunChunks]
    intro hmem
    rcases List.mem_append.1 hmem with h | h
    · exact ollamaInnerFuel_no_empty parse _ _ h
    · exact ih _ h

/-- The SSE payload `{"choices":[{"delta":{"content":""}}]}`, which
serde_json parses to one choice whose delta content is `Some("")`. -/
def C5data : String := "\x7b\"choices\":[\x7b\"delta\":\x7b\"content\":\"\"\x7d\x7d]\x7d"

/-- `serde_json::from_str::<OpenAIStreamChunk>` restricted to the inputs
the counterexample needs. -/
def C5parse : String → Option OpenAIStreamChunk := fun s =>
  if s = C5data then some { choices := [{ delta := { content := some "" } }] }
  else none

/-- C5: refuted for the OpenAI adapter.  A well-formed SSE chunk whose
delta content is the empty string makes `call_llm_stream` send `""` on the
channel, because `if let Some(content)` has no emptiness guard (the Ollama
adapter checks `!message.content.is_empty()` and satisfies the claim, see
`ollama_no_empty_token`). -/
theorem C5_openai_sends_empty_token :
    openaiRunChunks C5parse [("data: " ++ C5data ++ "\n")] [] = [""] := by
  decide

end Moose
